import Mathlib

/-!
Shallow embedding of the upload orchestration pipeline of the
memenow-storage-service repository (src/domain/services.rs, src/error.rs,
src/config.rs), together with theorems settling the spec claims.

Modelling conventions:
* Bytes are `Nat` values; a byte buffer is `List Nat` (only lengths matter
  to the properties under study).
* The local filesystem is an association list from paths to contents;
  every effectful operation threads it explicitly and returns the final
  filesystem next to the `Except` result, mirroring the tokio file system
  calls in the source.
* Randomness (the two `Uuid::new_v4()` calls) and the two storage backends
  (`upload_to_s3`, `upload_to_ipfs`) are externalized as parameters: a UUID
  is an arbitrary string argument, a backend is a function returning
  `Except String String` (its locator or its error display string).
* `tokio::try_join!` is modelled by `try_join` below: success only when
  both succeed, otherwise the error of a failed branch.
* The Rust config field named key underscore followed by the word for a
  leading string is rendered `keyPre` here.
-/

/-- UploadConfig from src/config.rs: `max_file_size` and `temp_dir`. -/
structure UploadConfig where
  max_file_size : Nat
  temp_dir : String
deriving Repr, DecidableEq

/-- S3Config from src/config.rs (region omitted: unused by the pipeline);
`keyPre` embeds the source's key-pre-string field. -/
structure S3Config where
  bucket : String
  keyPre : String
deriving Repr, DecidableEq

/-- Config from src/config.rs, restricted to the fields the upload
pipeline reads. -/
structure Config where
  s3 : S3Config
  upload : UploadConfig
deriving Repr, DecidableEq

/-- StorageError from src/error.rs: all nine variants of the enum, with
each payload rendered as the display string it carries. -/
inductive StorageError where
  | S3Error (msg : String)
  | IpfsError (msg : String)
  | IoError (msg : String)
  | MultipartError (msg : String)
  | ConfigError (msg : String)
  | UploadError (msg : String)
  | NoFileError
  | InternalError (msg : String)
  | AwsError (msg : String)
deriving Repr, DecidableEq

/-- The character classes admitted by `sanitize_filename` in
src/domain/services.rs line 247: lowercase, uppercase, digits, dot,
hyphen, underscore. -/
def isAllowedChar (c : Char) : Bool :=
  (decide ('a' ≤ c) && decide (c ≤ 'z')) ||
  (decide ('A' ≤ c) && decide (c ≤ 'Z')) ||
  (decide ('0' ≤ c) && decide (c ≤ '9')) ||
  c == '.' || c == '-' || c == '_'

/-- One arm of the `match` inside `sanitize_filename`: an admitted
character passes through, anything else becomes an underscore. -/
def sanitizeChar (c : Char) : Char :=
  if isAllowedChar c then c else '_'

/-- sanitize_filename from src/domain/services.rs lines 243-251:
`filename.chars().map(...).collect()`. -/
def sanitize_filename (filename : String) : String :=
  String.mk (filename.data.map sanitizeChar)

/-- generate_file_key from src/domain/services.rs lines 228-232; the
`Uuid::new_v4()` drawn inside the Rust function is the explicit first
argument `uuid` here.  The key is
the pre-string, a slash, the uuid, an underscore, the sanitized name. -/
def generate_file_key (uuid : String) (filename : String) (pre : String) : String :=
  pre ++ "/" ++ uuid ++ "_" ++ sanitize_filename filename

theorem sanitizeChar_allowed (c : Char) : isAllowedChar (sanitizeChar c) = true := by
  unfold sanitizeChar
  by_cases h : isAllowedChar c = true
  · simp [h]
  · simp [h]
    rfl

theorem sanitize_data (f : String) :
    (sanitize_filename f).data = f.data.map sanitizeChar := rfl

example : sanitize_filename "test.jpg" = "test.jpg" := by rfl
example : sanitize_filename "test file.jpg" = "test_file.jpg" := by rfl
example : sanitize_filename "test@#$.jpg" = "test___.jpg" := by rfl
example : sanitize_filename "../../../etc/passwd" = ".._.._.._etc_passwd" := by rfl

/-! ## Filesystem model

The local filesystem is an association list from paths to byte contents.
`fsCreate` models `tokio::fs::File::create` (truncating creation),
`fsAppend` models `file.write_all` on the open handle, `fsRemove` models
`tokio::fs::remove_file`, and `fsHas`/`fileSize` observe the state. -/

/-- A byte buffer: the payload of one multipart data chunk. -/
abbrev Bytes := List Nat

/-- The local filesystem: paths mapped to file contents. -/
abbrev FS := List (String × Bytes)

/-- File::create — truncating creation of the file at `p`. -/
def fsCreate (fs : FS) (p : String) : FS :=
  (p, []) :: fs.filter (fun e => ¬ (e.1 = p))

/-- write_all — append `b` to the contents of the file at `p`. -/
def fsAppend (fs : FS) (p : String) (b : Bytes) : FS :=
  fs.map (fun e => if e.1 = p then (e.1, e.2 ++ b) else e)

/-- remove_file — delete the file at `p`. -/
def fsRemove (fs : FS) (p : String) : FS :=
  fs.filter (fun e => ¬ (e.1 = p))

/-- Does a file exist at path `p`? -/
def fsHas (fs : FS) (p : String) : Bool :=
  fs.any (fun e => e.1 = p)

/-- Size in bytes of the file at `p` (0 when absent). -/
def fileSize (fs : FS) (p : String) : Nat :=
  ((fs.find? (fun e => e.1 = p)).map (fun e => e.2.length)).getD 0

/-! ## Multipart model

warp Part is rendered `FormPart` (the name Part denotes partial values in Mathlib); it carries the field name, the client-declared filename when
present, and the sequence of data chunks; each chunk read may fail, as
`part.data()` yields `Result` values in warp. -/

/-- One chunk as delivered by `part.data()`: the bytes, or the display
string of a read error. -/
abbrev Chunk := Except String Bytes

/-- A part of the multipart form (warp::multipart::Part). -/
structure FormPart where
  name : String
  filename : Option String
  chunks : List Chunk

/-- PathBuf::from(dir).join(rest): an absolute `rest` replaces the
path; otherwise a separator is inserted unless `dir` already ends with
one or is empty. -/
def joinPath (dir rest : String) : String :=
  if rest.data.head? = some '/' then rest
  else if dir.data.getLast? = some '/' ∨ dir = "" then dir ++ rest
  else dir ++ "/" ++ rest

/-- The error message built at src/domain/services.rs lines 194-197 when
the running size passes the cap. -/
def sizeLimitMsg (max : Nat) : String :=
  "File size exceeds maximum allowed size of " ++ toString max ++ " bytes"

/-- The chunk loop of extract_and_save_file (src/domain/services.rs lines
182-203): add the chunk length to the running total, abort — deleting the
partial file — if the total passes `max`, otherwise write the chunk and
continue.  Returns the final filesystem next to the byte count or error. -/
def writeChunks (path : String) (max : Nat) (chunks : List Chunk)
    (fs : FS) (total : Nat) : FS × Except StorageError Nat :=
  match chunks with
  | [] => (fs, .ok total)
  | .error e :: _ =>
      (fs, .error (.MultipartError ("Failed to read chunk: " ++ e)))
  | .ok bytes :: rest =>
      let total2 := total + bytes.length
      if total2 > max then
        (fsRemove fs path, .error (.UploadError (sizeLimitMsg max)))
      else
        writeChunks path max rest (fsAppend fs path bytes) total2

/-- The body of the `if part.name() == "file"` branch (src/domain/services.rs
lines 163-211): require a declared filename, create the transient file at
temp_dir joined with uuid underscore filename, run the chunk loop, and on
success return (filepath, filename, byte count). -/
def processPart (config : Config) (uuid : String) (part : FormPart)
    (fs : FS) : FS × Except StorageError (String × String × Nat) :=
  match part.filename with
  | none => (fs, .error .NoFileError)
  | some filename =>
      let temp_filename := uuid ++ "_" ++ filename
      let filepath := joinPath config.upload.temp_dir temp_filename
      let fs1 := fsCreate fs filepath
      match writeChunks filepath config.upload.max_file_size part.chunks fs1 0 with
      | (fs2, .error e) => (fs2, .error e)
      | (fs2, .ok total) => (fs2, .ok (filepath, filename, total))

/-- The `for part in parts` loop of extract_and_save_file: skip parts not
named "file"; the first part named "file" is processed and the loop breaks
(src/domain/services.rs lines 162-215), so later parts are never visited;
an exhausted list yields NoFileError. -/
def extractLoop (config : Config) (uuid : String) (parts : List FormPart)
    (fs : FS) : FS × Except StorageError (String × String × Nat) :=
  match parts with
  | [] => (fs, .error .NoFileError)
  | p :: rest =>
      if p.name = "file" then processPart config uuid p fs
      else extractLoop config uuid rest fs

/-- extract_and_save_file (src/domain/services.rs lines 151-216); the
`form.try_collect()` step is the `form` argument: either the collected
parts or a multipart error display string. -/
def extract_and_save_file (config : Config) (uuid : String)
    (form : Except String (List FormPart)) (fs : FS) :
    FS × Except StorageError (String × String × Nat) :=
  match form with
  | .error e => (fs, .error (.MultipartError e))
  | .ok parts => extractLoop config uuid parts fs

/-- tokio::try_join! over the two backend futures: both locators on
success, otherwise the error of a failed branch. -/
def try_join (a b : Except String String) : Except String (String × String) :=
  match a, b with
  | .ok x, .ok y => .ok (x, y)
  | .error e, _ => .error e
  | .ok _, .error e => .error e

/-- UploadResponse from src/domain/services.rs lines 24-33. -/
structure UploadResponse where
  s3_url : String
  ipfs_hash : String
  filename : String
  size : Nat
deriving Repr, DecidableEq

/-- handle_upload (src/domain/services.rs lines 73-133).  `uuid1` is the
UUID drawn for the transient filename, `uuid2` the one drawn inside
generate_file_key; `s3Put path bucket key` and `ipfsPut path` are the two
backend capabilities.  Mirrors the source exactly: on a try_join error the
function returns at the `?` and `remove_file` is NOT reached; on success
the transient file is removed (a removal failure is only logged, so the
model removal succeeds) and the response is built. -/
def handle_upload (config : Config) (uuid1 uuid2 : String)
    (s3Put : String → String → String → Except String String)
    (ipfsPut : String → Except String String)
    (form : Except String (List FormPart)) (fs : FS) :
    FS × Except StorageError UploadResponse :=
  match extract_and_save_file config uuid1 form fs with
  | (fs1, .error e) => (fs1, .error e)
  | (fs1, .ok (filepath, filename, file_size)) =>
      let file_key := generate_file_key uuid2 filename config.s3.keyPre
      match try_join (s3Put filepath config.s3.bucket file_key)
          (ipfsPut filepath) with
      | .error e => (fs1, .error (.UploadError e))
      | .ok (s3_url, ipfs_hash) =>
          let fs2 := fsRemove fs1 filepath
          (fs2, .ok { s3_url := s3_url, ipfs_hash := ipfs_hash,
                      filename := filename, size := file_size })

/-! ## Filesystem lemmas -/

theorem fsHas_fsRemove (fs : FS) (p : String) :
    fsHas (fsRemove fs p) p = false := by
  induction fs with
  | nil => rfl
  | cons e fs ih =>
      by_cases h : e.1 = p
      · have h2 : fsRemove (e :: fs) p = fsRemove fs p := by
          simp [fsRemove, List.filter_cons, h]
        rw [h2]; exact ih
      · have h2 : fsRemove (e :: fs) p = e :: fsRemove fs p := by
          simp [fsRemove, List.filter_cons, h]
        rw [h2]
        show (decide (e.1 = p) || fsHas (fsRemove fs p) p) = false
        simp [h, ih]

theorem fsHas_fsCreate_self (fs : FS) (p : String) :
    fsHas (fsCreate fs p) p = true := by
  simp [fsCreate, fsHas]

theorem fsHas_fsAppend (fs : FS) (p q : String) (b : Bytes) :
    fsHas (fsAppend fs p b) q = fsHas fs q := by
  induction fs with
  | nil => rfl
  | cons e fs ih =>
      have hd : fsAppend (e :: fs) p b
          = (if e.1 = p then (e.1, e.2 ++ b) else e) :: fsAppend fs p b := rfl
      by_cases h : e.1 = p
      · rw [hd, if_pos h]
        show (decide (e.1 = q) || fsHas (fsAppend fs p b) q)
            = (decide (e.1 = q) || fsHas fs q)
        rw [ih]
      · rw [hd, if_neg h]
        show (decide (e.1 = q) || fsHas (fsAppend fs p b) q)
            = (decide (e.1 = q) || fsHas fs q)
        rw [ih]

theorem fileSize_fsCreate_self (fs : FS) (p : String) :
    fileSize (fsCreate fs p) p = 0 := by
  simp [fsCreate, fileSize, List.find?_cons_of_pos]

theorem fileSize_fsRemove (fs : FS) (p : String) :
    fileSize (fsRemove fs p) p = 0 := by
  induction fs with
  | nil => rfl
  | cons e fs ih =>
      by_cases h : e.1 = p
      · have h2 : fsRemove (e :: fs) p = fsRemove fs p := by
          simp [fsRemove, List.filter_cons, h]
        rw [h2]; exact ih
      · have h2 : fsRemove (e :: fs) p = e :: fsRemove fs p := by
          simp [fsRemove, List.filter_cons, h]
        rw [h2]
        have h3 : fileSize (e :: fsRemove fs p) p = fileSize (fsRemove fs p) p := by
          simp [fileSize, List.find?_cons_of_neg, h]
        rw [h3]; exact ih

theorem fileSize_fsAppend_self (fs : FS) (p : String) (b : Bytes)
    (hin : fsHas fs p = true) :
    fileSize (fsAppend fs p b) p = fileSize fs p + b.length := by
  induction fs with
  | nil => simp [fsHas] at hin
  | cons e fs ih =>
      have hd : fsAppend (e :: fs) p b
          = (if e.1 = p then (e.1, e.2 ++ b) else e) :: fsAppend fs p b := rfl
      by_cases h : e.1 = p
      · rw [hd, if_pos h]
        simp [fileSize, List.find?_cons_of_pos, h]
      · rw [hd, if_neg h]
        have h2 : fsHas fs p = true := by
          have : (decide (e.1 = p) || fsHas fs p) = true := hin
          simpa [h] using this
        have h3 : fileSize (e :: fsAppend fs p b) p
            = fileSize (fsAppend fs p b) p := by
          simp [fileSize, List.find?_cons_of_neg, h]
        have h4 : fileSize (e :: fs) p = fileSize fs p := by
          simp [fileSize, List.find?_cons_of_neg, h]
        rw [h3, h4]; exact ih h2

/-! ## Chunk-loop lemmas -/

/-- Running the chunk loop on `done ++ todo` is running it on `done` and,
when that did not abort, continuing on `todo` from the reached state: the
states reached by a full run are exactly those reached on its prefixes. -/
theorem writeChunks_append (path : String) (max : Nat) (done todo : List Chunk) :
    ∀ (fs : FS) (total : Nat),
      writeChunks path max (done ++ todo) fs total =
        match writeChunks path max done fs total with
        | (fs1, .ok t1) => writeChunks path max todo fs1 t1
        | (fs1, .error e) => (fs1, .error e) := by
  induction done with
  | nil => intro fs total; rfl
  | cons c rest ih =>
      intro fs total
      match c with
      | .error e => rfl
      | .ok bytes =>
          by_cases h : total + bytes.length > max
          · simp [writeChunks, if_pos h]
          · simp [writeChunks, if_neg h]
            exact ih (fsAppend fs path bytes) (total + bytes.length)

/-- Invariant of the chunk loop: starting from a state where the file at
`path` exists with exactly `total` bytes and `total` is within the cap,
the file never exceeds the cap in the resulting state, and a successful
return reports a byte count equal to the file's size, still capped. -/
theorem writeChunks_inv (path : String) (max : Nat) :
    ∀ (chunks : List Chunk) (fs : FS) (total : Nat),
      fsHas fs path = true → fileSize fs path = total → total ≤ max →
      fileSize (writeChunks path max chunks fs total).1 path ≤ max ∧
      (∀ t, (writeChunks path max chunks fs total).2 = .ok t →
        t ≤ max ∧ fileSize (writeChunks path max chunks fs total).1 path = t ∧
        fsHas (writeChunks path max chunks fs total).1 path = true) := by
  intro chunks
  induction chunks with
  | nil =>
      intro fs total hhas hsize hle
      refine ⟨by simpa [writeChunks, hsize] using hle, ?_⟩
      intro t ht
      have : total = t := by simpa [writeChunks] using ht
      subst this
      exact ⟨hle, by simpa [writeChunks] using hsize, by simpa [writeChunks] using hhas⟩
  | cons c rest ih =>
      intro fs total hhas hsize hle
      match c with
      | .error e =>
          refine ⟨by simpa [writeChunks, hsize] using hle, ?_⟩
          intro t ht
          simp [writeChunks] at ht
      | .ok bytes =>
          by_cases h : total + bytes.length > max
          · have step : writeChunks path max (Except.ok bytes :: rest) fs total
                = (fsRemove fs path, .error (.UploadError (sizeLimitMsg max))) := by
              simp [writeChunks, if_pos h]
            rw [step]
            refine ⟨by simp [fileSize_fsRemove], ?_⟩
            intro t ht
            simp at ht
          · have hhas2 : fsHas (fsAppend fs path bytes) path = true := by
              rw [fsHas_fsAppend]; exact hhas
            have hsize2 : fileSize (fsAppend fs path bytes) path
                = total + bytes.length := by
              rw [fileSize_fsAppend_self fs path bytes hhas, hsize]
            have hle2 : total + bytes.length ≤ max := Nat.le_of_not_lt h
            have step : writeChunks path max (Except.ok bytes :: rest) fs total
                = writeChunks path max rest (fsAppend fs path bytes)
                    (total + bytes.length) := by
              simp [writeChunks, if_neg h]
            rw [step]
            exact ih (fsAppend fs path bytes) (total + bytes.length) hhas2 hsize2 hle2

/-- The only way the chunk loop produces an UploadError is the size-cap
branch, which removes the file first: on that outcome the file at `path`
is absent from the resulting filesystem. -/
theorem writeChunks_uploadError_removed (path : String) (max : Nat) :
    ∀ (chunks : List Chunk) (fs : FS) (total : Nat) (m : String),
      (writeChunks path max chunks fs total).2 = .error (.UploadError m) →
      fsHas (writeChunks path max chunks fs total).1 path = false := by
  intro chunks
  induction chunks with
  | nil => intro fs total m hm; simp [writeChunks] at hm
  | cons c rest ih =>
      intro fs total m hm
      match c with
      | .error e => simp [writeChunks] at hm
      | .ok bytes =>
          by_cases h : total + bytes.length > max
          · simp [writeChunks, if_pos h, fsHas_fsRemove]
          · have step : writeChunks path max (Except.ok bytes :: rest) fs total
                = writeChunks path max rest (fsAppend fs path bytes)
                    (total + bytes.length) := by
              simp [writeChunks, if_neg h]
            rw [step] at hm ⊢
            exact ih _ _ m hm

/-! ## Extraction lemmas -/

/-- The part the `for` loop commits to: the first part whose field name
is "file". -/
def firstFilePart (parts : List FormPart) : Option FormPart :=
  parts.find? (fun p => p.name = "file")

/-- The transient path the pipeline builds for a given parts list: the
configured temp_dir joined with the uuid, an underscore, and the first
file part's declared filename, verbatim. -/
def transientPathOf (config : Config) (uuid : String)
    (parts : List FormPart) : Option String :=
  match firstFilePart parts with
  | none => none
  | some pt =>
      pt.filename.map (fun fn => joinPath config.upload.temp_dir (uuid ++ "_" ++ fn))

/-- The loop settles on the first part named "file": its whole outcome is
that of processing that part alone. -/
theorem extractLoop_eq_processPart (config : Config) (uuid : String) :
    ∀ (parts : List FormPart) (pt : FormPart) (fs : FS),
      firstFilePart parts = some pt →
      extractLoop config uuid parts fs = processPart config uuid pt fs := by
  intro parts
  induction parts with
  | nil => intro pt fs hpt; simp [firstFilePart] at hpt
  | cons p rest ih =>
      intro pt fs hpt
      by_cases h : p.name = "file"
      · have : pt = p := by
          simp [firstFilePart, List.find?_cons_of_pos, h] at hpt
          exact hpt.symm
        subst this
        simp [extractLoop, if_pos h]
      · have h2 : firstFilePart rest = some pt := by
          simpa [firstFilePart, List.find?_cons_of_neg, h] using hpt
        simpa [extractLoop, if_neg h] using ih pt fs h2

/-- Without any part named "file" the loop exhausts the list and fails
with NoFileError, leaving the filesystem untouched. -/
theorem extractLoop_no_file (config : Config) (uuid : String) :
    ∀ (parts : List FormPart) (fs : FS),
      firstFilePart parts = none →
      extractLoop config uuid parts fs = (fs, .error .NoFileError) := by
  intro parts
  induction parts with
  | nil => intro fs hp; rfl
  | cons p rest ih =>
      intro fs hp
      by_cases h : p.name = "file"
      · simp [firstFilePart, List.find?_cons_of_pos, h] at hp
      · have h2 : firstFilePart rest = none := by
          simpa [firstFilePart, List.find?_cons_of_neg, h] using hp
        simpa [extractLoop, if_neg h] using ih fs h2

/-- Characterization of a successful processPart: the part declared the
returned filename, the returned path is temp_dir joined with the uuid,
an underscore and that filename verbatim, the file exists at that path
in the resulting filesystem, and its size equals the returned count,
which is within the cap. -/
theorem processPart_ok (config : Config) (uuid : String) (pt : FormPart)
    (fs fs2 : FS) (fp fn : String) (sz : Nat)
    (h : processPart config uuid pt fs = (fs2, .ok (fp, fn, sz))) :
    pt.filename = some fn ∧
    fp = joinPath config.upload.temp_dir (uuid ++ "_" ++ fn) ∧
    fsHas fs2 fp = true ∧ fileSize fs2 fp = sz ∧
    sz ≤ config.upload.max_file_size := by
  match hf : pt.filename with
  | none => simp [processPart, hf] at h
  | some fn0 =>
      have hp := h
      simp only [processPart, hf] at hp
      set fp0 := joinPath config.upload.temp_dir (uuid ++ "_" ++ fn0) with hfp0
      have hinv := writeChunks_inv fp0 config.upload.max_file_size pt.chunks
        (fsCreate fs fp0) 0 (fsHas_fsCreate_self fs fp0)
        (fileSize_fsCreate_self fs fp0) (Nat.zero_le _)
      match hw : writeChunks fp0 config.upload.max_file_size pt.chunks
          (fsCreate fs fp0) 0 with
      | (fsw, .error e) =>
          rw [hw] at hp
          simp at hp
      | (fsw, .ok t) =>
          rw [hw] at hp hinv
          simp at hp
          obtain ⟨hfs2, hfp, hfn, hsz⟩ := hp
          obtain ⟨hcap, hok⟩ := hinv
          obtain ⟨ht1, ht2, ht3⟩ := hok t rfl
          subst hfs2
          refine ⟨by rw [hfn], by rw [← hfp, hfp0, hfn], ?_, ?_, ?_⟩
          · rw [← hfp]; exact ht3
          · rw [← hfp, ← hsz]; exact ht2
          · rw [← hsz]; exact ht1

/-- Parts not named "file" are passed over with no effect at all. -/
theorem extractLoop_skip (config : Config) (uuid : String) :
    ∀ (before rest : List FormPart) (fs : FS),
      (∀ q ∈ before, q.name ≠ "file") →
      extractLoop config uuid (before ++ rest) fs
        = extractLoop config uuid rest fs := by
  intro before
  induction before with
  | nil => intro rest fs hb; rfl
  | cons q qs ih =>
      intro rest fs hb
      have hq : ¬ (q.name = "file") := hb q (List.mem_cons_self q qs)
      have hqs : ∀ r ∈ qs, r.name ≠ "file" := fun r hr => hb r (List.mem_cons_of_mem q hr)
      show extractLoop config uuid (q :: (qs ++ rest)) fs = _
      simp only [extractLoop, if_neg hq]
      exact ih rest fs hqs

/-- Appending to a file and then deleting it is just deleting it. -/
theorem fsRemove_fsAppend (fs : FS) (p : String) (b : Bytes) :
    fsRemove (fsAppend fs p b) p = fsRemove fs p := by
  induction fs with
  | nil => rfl
  | cons e fs ih =>
      have hd : fsAppend (e :: fs) p b
          = (if e.1 = p then (e.1, e.2 ++ b) else e) :: fsAppend fs p b := rfl
      by_cases h : e.1 = p
      · rw [hd, if_pos h]
        have h1 : fsRemove ((e.1, e.2 ++ b) :: fsAppend fs p b) p
            = fsRemove (fsAppend fs p b) p := by
          simp [fsRemove, List.filter_cons, h]
        have h2 : fsRemove (e :: fs) p = fsRemove fs p := by
          simp [fsRemove, List.filter_cons, h]
        rw [h1, h2, ih]
      · rw [hd, if_neg h]
        have h1 : fsRemove (e :: fsAppend fs p b) p
            = e :: fsRemove (fsAppend fs p b) p := by
          simp [fsRemove, List.filter_cons, h]
        have h2 : fsRemove (e :: fs) p = e :: fsRemove fs p := by
          simp [fsRemove, List.filter_cons, h]
        rw [h1, h2, ih]

/-- When every chunk arrives intact and the cumulative length passes the
cap, the chunk loop aborts with the size-cap UploadError and the final
filesystem is the initial one with the file at `path` deleted. -/
theorem writeChunks_exceeds (path : String) (max : Nat) :
    ∀ (bs : List Bytes) (fs : FS) (total : Nat),
      total ≤ max → total + (bs.map List.length).sum > max →
      writeChunks path max (bs.map Except.ok) fs total
        = (fsRemove fs path, .error (.UploadError (sizeLimitMsg max))) := by
  intro bs
  induction bs with
  | nil =>
      intro fs total hle hgt
      simp at hgt
      exact absurd hle (Nat.not_le_of_lt hgt)
  | cons b rest ih =>
      intro fs total hle hgt
      by_cases h : total + b.length > max
      · simp [writeChunks, if_pos h]
      · have hle2 : total + b.length ≤ max := Nat.le_of_not_lt h
        have hgt2 : total + b.length + (rest.map List.length).sum > max := by
          simp [List.map_cons, List.sum_cons] at hgt
          omega
        have step : writeChunks path max ((b :: rest).map Except.ok) fs total
            = writeChunks path max (rest.map Except.ok)
                (fsAppend fs path b) (total + b.length) := by
          simp [writeChunks, if_neg h]
        rw [step, ih (fsAppend fs path b) (total + b.length) hle2 hgt2,
          fsRemove_fsAppend]

/-- Lifting writeChunks_uploadError_removed through processPart: a
size-cap UploadError outcome leaves no file at the part's transient
path. -/
theorem processPart_uploadError_removed (config : Config) (uuid : String)
    (pt : FormPart) (fs : FS) (fn m : String)
    (hf : pt.filename = some fn)
    (h : (processPart config uuid pt fs).2 = .error (.UploadError m)) :
    fsHas (processPart config uuid pt fs).1
      (joinPath config.upload.temp_dir (uuid ++ "_" ++ fn)) = false := by
  have hp : processPart config uuid pt fs
      = (let filepath := joinPath config.upload.temp_dir (uuid ++ "_" ++ fn)
         match writeChunks filepath config.upload.max_file_size pt.chunks
             (fsCreate fs filepath) 0 with
         | (fs2, .error e) => (fs2, .error e)
         | (fs2, .ok total) => (fs2, .ok (filepath, fn, total))) := by
    simp [processPart, hf]
  set fp := joinPath config.upload.temp_dir (uuid ++ "_" ++ fn) with hfp
  match hw : writeChunks fp config.upload.max_file_size pt.chunks
      (fsCreate fs fp) 0 with
  | (fsw, .error e) =>
      rw [hp] at h ⊢
      simp only [hw] at h ⊢
      have he : e = .UploadError m := by simpa using h
      subst he
      have := writeChunks_uploadError_removed fp config.upload.max_file_size
        pt.chunks (fsCreate fs fp) 0 m (by rw [hw])
      rw [hw] at this
      simpa using this
  | (fsw, .ok t) =>
      rw [hp] at h
      simp only [hw] at h
      simp at h

/-! ## Claim theorems -/

/-- C5: for every filename f, sanitize_filename f has the same length as
f, contains only characters from the allowed class, and maps each
character of f positionally: characters in the class pass through
unchanged, everything else becomes an underscore. -/
theorem sanitize_filename_spec (f : String) :
    (sanitize_filename f).length = f.length ∧
    (sanitize_filename f).data.all isAllowedChar = true ∧
    ∀ i : Nat, (sanitize_filename f).data[i]?
      = Option.map (fun c => if isAllowedChar c then c else '_') f.data[i]? := by
  refine ⟨?_, ?_, ?_⟩
  · show (String.mk (f.data.map sanitizeChar)).length = f.length
    rw [String.length_mk, List.length_map]
    rfl
  · rw [List.all_eq_true]
    intro c hc
    rw [sanitize_data] at hc
    obtain ⟨y, _, hy⟩ := List.mem_map.mp hc
    rw [← hy]
    exact sanitizeChar_allowed y
  · intro i
    rw [sanitize_data, List.getElem?_map]
    rfl

/-- C6: generate_file_key u f p starts with p followed by a slash, ends
with an underscore followed by sanitize_filename f, and two invocations
with the same filename and same key pre-string but distinct fresh
suffixes never collide. -/
theorem generate_file_key_spec (u v f p : String) :
    (∃ rest, generate_file_key u f p = p ++ "/" ++ rest) ∧
    (∃ front, generate_file_key u f p = front ++ "_" ++ sanitize_filename f) ∧
    (u ≠ v → generate_file_key u f p ≠ generate_file_key v f p) := by
  refine ⟨⟨u ++ "_" ++ sanitize_filename f, ?_⟩, ⟨p ++ "/" ++ u, rfl⟩, ?_⟩
  · simp [generate_file_key, String.append_assoc]
  · intro hne heq
    apply hne
    have hdata := congrArg String.data heq
    simp only [generate_file_key, String.data_append, List.append_assoc] at hdata
    have h1 := List.append_cancel_left hdata
    have h2 := List.append_cancel_left h1
    have h3 := List.append_cancel_right h2
    exact String.ext h3

/-- Witness for C6 at concrete inputs: two distinct UUID suffixes give
two distinct keys for the same filename and pre-string. -/
theorem generate_file_key_spec_witness :
    ("u1" : String) ≠ "u2" ∧
    generate_file_key "u1" "a.txt" "uploads"
      ≠ generate_file_key "u2" "a.txt" "uploads" :=
  ⟨by decide, (generate_file_key_spec "u1" "u2" "a.txt" "uploads").2.2 (by decide)⟩

/-- A concrete configuration for witnesses and counterexamples: bucket
"default-bucket", key pre-string "uploads", cap 1000 bytes, temp dir
"/tmp" (the defaults of src/config.rs, with a small cap). -/
def cfgEx : Config :=
  { s3 := { bucket := "default-bucket", keyPre := "uploads" },
    upload := { max_file_size := 1000, temp_dir := "/tmp" } }

/-- C3 counterexample: a multipart body whose only part is named "file"
but declares no filename makes the extractor FAIL with NoFileError — it
does not succeed with a fallback name as the claim states. -/
theorem extract_missing_filename_counterexample :
    (extract_and_save_file cfgEx "u1"
      (.ok [{ name := "file", filename := none, chunks := [] }]) []).2
      = .error .NoFileError := by rfl

/-- C3 amended: for a part named "file" whose declared filename is
omitted, extract_and_save_file fails with NoFileError and leaves the
filesystem untouched; no fallback name is substituted. -/
theorem extract_missing_filename_fails (config : Config) (uuid : String)
    (before : List FormPart) (p : FormPart) (after : List FormPart) (fs : FS)
    (hb : ∀ q ∈ before, q.name ≠ "file")
    (hp : p.name = "file") (hf : p.filename = none) :
    extract_and_save_file config uuid (.ok (before ++ p :: after)) fs
      = (fs, .error .NoFileError) := by
  show extractLoop config uuid (before ++ p :: after) fs = _
  rw [extractLoop_skip config uuid before (p :: after) fs hb]
  simp [extractLoop, if_pos hp, processPart, hf]

/-- Witness for the amended C3 at a concrete input. -/
theorem extract_missing_filename_fails_witness :
    extract_and_save_file cfgEx "u1"
      (.ok [{ name := "file", filename := none, chunks := [.ok [1, 2]] }]) []
      = ([], .error .NoFileError) :=
  extract_missing_filename_fails cfgEx "u1" []
    { name := "file", filename := none, chunks := [.ok [1, 2]] } [] []
    (by intro q hq; exact absurd hq (List.not_mem_nil q)) rfl rfl

/-- C7: a multipart body holding a "file" part with a declared filename
and an empty byte stream is not treated as missing: extraction succeeds
with byte count 0, the transient file being created empty. -/
theorem extract_empty_stream_ok (config : Config) (uuid : String)
    (before : List FormPart) (p : FormPart) (after : List FormPart)
    (fs : FS) (fn : String)
    (hb : ∀ q ∈ before, q.name ≠ "file")
    (hp : p.name = "file") (hf : p.filename = some fn) (hc : p.chunks = []) :
    extract_and_save_file config uuid (.ok (before ++ p :: after)) fs
      = (fsCreate fs (joinPath config.upload.temp_dir (uuid ++ "_" ++ fn)),
         .ok (joinPath config.upload.temp_dir (uuid ++ "_" ++ fn), fn, 0)) := by
  show extractLoop config uuid (before ++ p :: after) fs = _
  rw [extractLoop_skip config uuid before (p :: after) fs hb]
  simp [extractLoop, if_pos hp, processPart, hf, hc, writeChunks]

/-- Witness for C7 at a concrete input: an empty "file" part succeeds
with size 0. -/
theorem extract_empty_stream_ok_witness :
    extract_and_save_file cfgEx "u1"
      (.ok [{ name := "file", filename := some "empty.bin", chunks := [] }]) []
      = (fsCreate [] "/tmp/u1_empty.bin", .ok ("/tmp/u1_empty.bin", "empty.bin", 0)) :=
  (extract_empty_stream_ok cfgEx "u1" []
    { name := "file", filename := some "empty.bin", chunks := [] } [] [] "empty.bin"
    (by intro q hq; exact absurd hq (List.not_mem_nil q)) rfl rfl rfl).trans (by rfl)

/-- C10: in a body with several parts, the loop commits to the first part
named "file": the entire outcome — filesystem included — is that of
processing that part alone, so every later part (of any name, including
further "file" parts) is ignored and creates no transient file. -/
theorem extract_first_file_part_only (config : Config) (uuid : String)
    (before : List FormPart) (p : FormPart) (after : List FormPart) (fs : FS)
    (hb : ∀ q ∈ before, q.name ≠ "file") (hp : p.name = "file") :
    extract_and_save_file config uuid (.ok (before ++ p :: after)) fs
      = processPart config uuid p fs := by
  show extractLoop config uuid (before ++ p :: after) fs = _
  rw [extractLoop_skip config uuid before (p :: after) fs hb]
  simp [extractLoop, if_pos hp]

/-- Witness for C10 at a concrete input: with two "file" parts the
outcome is exactly that of the first, the second makes no file. -/
theorem extract_first_file_part_only_witness :
    extract_and_save_file cfgEx "u1"
      (.ok [{ name := "meta", filename := some "m.txt", chunks := [] },
            { name := "file", filename := some "a.txt", chunks := [.ok [7]] },
            { name := "file", filename := some "b.txt", chunks := [.ok [8]] }]) []
      = processPart cfgEx "u1"
          { name := "file", filename := some "a.txt", chunks := [.ok [7]] } [] :=
  extract_first_file_part_only cfgEx "u1"
    [{ name := "meta", filename := some "m.txt", chunks := [] }]
    { name := "file", filename := some "a.txt", chunks := [.ok [7]] }
    [{ name := "file", filename := some "b.txt", chunks := [.ok [8]] }] []
    (by intro q hq
        have : q = { name := "meta", filename := some "m.txt", chunks := [] } := by
          simpa using hq
        subst this
        decide) rfl

/-- Directory component of a path: everything before the last slash. -/
def parentDir (p : String) : String :=
  String.mk (((p.data.reverse.dropWhile (fun c => ¬ (c = '/'))).drop 1).reverse)

/-- C8: the transient path is temp_dir joined with uuid, an underscore
and the client filename VERBATIM — sanitization is applied only to the
storage key, never to the transient path — so a filename containing a
path separator changes the directory the transient file lands in, as the
concrete conjuncts exhibit. -/
theorem transient_path_verbatim :
    (∀ (config : Config) (uuid : String) (form : Except String (List FormPart))
        (fs fs1 : FS) (fp fn : String) (sz : Nat),
      extract_and_save_file config uuid form fs = (fs1, .ok (fp, fn, sz)) →
      fp = joinPath config.upload.temp_dir (uuid ++ "_" ++ fn)) ∧
    parentDir (joinPath "/tmp" ("u1" ++ "_" ++ "b.txt")) = "/tmp" ∧
    parentDir (joinPath "/tmp" ("u1" ++ "_" ++ "a/b.txt")) = "/tmp/u1_a" ∧
    joinPath "/tmp" ("u1" ++ "_" ++ "a/b.txt")
      ≠ joinPath "/tmp" ("u1" ++ "_" ++ sanitize_filename "a/b.txt") := by
  refine ⟨?_, by rfl, by rfl, by decide⟩
  intro config uuid form fs fs1 fp fn sz h
  match form with
  | .error e => simp [extract_and_save_file] at h
  | .ok parts =>
      have hex : extractLoop config uuid parts fs = (fs1, .ok (fp, fn, sz)) := h
      match hfp : firstFilePart parts with
      | none =>
          rw [extractLoop_no_file config uuid parts fs hfp] at hex
          simp at hex
      | some pt =>
          rw [extractLoop_eq_processPart config uuid parts pt fs hfp] at hex
          exact (processPart_ok config uuid pt fs fs1 fp fn sz hex).2.1

/-- Witness for C8: a run at concrete inputs, whose extraction result the
universal conjunct maps back to the joined verbatim path. -/
theorem transient_path_verbatim_witness :
    ("/tmp/u1_a.txt" : String) = joinPath cfgEx.upload.temp_dir ("u1" ++ "_" ++ "a.txt") :=
  transient_path_verbatim.1 cfgEx "u1"
    (.ok [{ name := "file", filename := some "a.txt", chunks := [.ok [1]] }])
    [] [("/tmp/u1_a.txt", [1])] "/tmp/u1_a.txt" "a.txt" 1 (by rfl)

/-- A concrete configuration with a 5-byte cap, for size-limit
scenarios. -/
def cfg5 : Config :=
  { s3 := { bucket := "default-bucket", keyPre := "uploads" },
    upload := { max_file_size := 5, temp_dir := "/tmp" } }

/-- C2 counterexample: at a concrete oversized stream the call fails with
the GENERIC UploadError variant carrying a message — the StorageError
enum of src/error.rs has no SizeLimitExceeded variant at all, so the
claimed error kind cannot be produced; the deletion half of the claim
does hold, as the second conjunct shows. -/
theorem size_cap_error_kind_counterexample :
    (extract_and_save_file cfg5 "u1"
      (.ok [{ name := "file", filename := some "big.bin",
              chunks := [.ok [1, 2, 3], .ok [4, 5, 6]] }]) []).2
      = .error (.UploadError (sizeLimitMsg 5)) ∧
    fsHas (extract_and_save_file cfg5 "u1"
      (.ok [{ name := "file", filename := some "big.bin",
              chunks := [.ok [1, 2, 3], .ok [4, 5, 6]] }]) []).1
      "/tmp/u1_big.bin" = false :=
  ⟨by rfl, by rfl⟩

/-- C2 amended: when every chunk arrives intact and the cumulative size
exceeds max_file_size, extract_and_save_file fails with the generic
UploadError kind whose message names the limit (src/error.rs defines no
SizeLimitExceeded variant), and the partially written transient file has
been deleted before the call returns. -/
theorem size_cap_upload_error (config : Config) (uuid : String)
    (before : List FormPart) (p : FormPart) (after : List FormPart)
    (fs : FS) (fn : String) (bs : List Bytes)
    (hb : ∀ q ∈ before, q.name ≠ "file")
    (hp : p.name = "file") (hf : p.filename = some fn)
    (hc : p.chunks = bs.map Except.ok)
    (hgt : (bs.map List.length).sum > config.upload.max_file_size) :
    extract_and_save_file config uuid (.ok (before ++ p :: after)) fs
      = (fsRemove (fsCreate fs (joinPath config.upload.temp_dir (uuid ++ "_" ++ fn)))
           (joinPath config.upload.temp_dir (uuid ++ "_" ++ fn)),
         .error (.UploadError (sizeLimitMsg config.upload.max_file_size))) ∧
    fsHas (extract_and_save_file config uuid (.ok (before ++ p :: after)) fs).1
      (joinPath config.upload.temp_dir (uuid ++ "_" ++ fn)) = false := by
  set fp := joinPath config.upload.temp_dir (uuid ++ "_" ++ fn) with hfp
  have hmain : extract_and_save_file config uuid (.ok (before ++ p :: after)) fs
      = (fsRemove (fsCreate fs fp) fp,
         .error (.UploadError (sizeLimitMsg config.upload.max_file_size))) := by
    show extractLoop config uuid (before ++ p :: after) fs = _
    rw [extractLoop_skip config uuid before (p :: after) fs hb]
    have hw := writeChunks_exceeds fp config.upload.max_file_size bs
      (fsCreate fs fp) 0 (Nat.zero_le _) (by simpa using hgt)
    simp [extractLoop, if_pos hp, processPart, hf, hc, ← hfp, hw]
  exact ⟨hmain, by rw [hmain]; exact fsHas_fsRemove _ _⟩

/-- Witness for the amended C2 at a concrete input: two 3-byte chunks
against a 5-byte cap. -/
theorem size_cap_upload_error_witness :
    extract_and_save_file cfg5 "u2"
      (.ok [{ name := "file", filename := some "c.bin",
              chunks := [.ok [1, 2, 3], .ok [4, 5, 6]] }]) []
      = (fsRemove (fsCreate [] (joinPath "/tmp" ("u2" ++ "_" ++ "c.bin")))
           (joinPath "/tmp" ("u2" ++ "_" ++ "c.bin")),
         .error (.UploadError (sizeLimitMsg 5))) ∧
    fsHas (extract_and_save_file cfg5 "u2"
      (.ok [{ name := "file", filename := some "c.bin",
              chunks := [.ok [1, 2, 3], .ok [4, 5, 6]] }]) []).1
      (joinPath "/tmp" ("u2" ++ "_" ++ "c.bin")) = false :=
  size_cap_upload_error cfg5 "u2" []
    { name := "file", filename := some "c.bin",
      chunks := [.ok [1, 2, 3], .ok [4, 5, 6]] } [] [] "c.bin"
    [[1, 2, 3], [4, 5, 6]]
    (by intro q hq; exact absurd hq (List.not_mem_nil q)) rfl rfl rfl (by decide)

/-- C9: the running total including the incoming chunk is compared with
the cap BEFORE that chunk is written, so starting from the freshly
created transient file, after any prefix `done` of the chunk stream —
whether the loop is still running, ended normally, aborted on the cap, or
stopped on a read error — the bytes on disk at the transient path never
exceed max_file_size; the first conjunct shows every intermediate state
of a longer run is reached as such a prefix run. -/
theorem write_cap_invariant (path : String) (max : Nat)
    (done : List Chunk) (fs : FS) :
    (∀ (todo : List Chunk) (fs1 : FS) (t1 : Nat),
      writeChunks path max done (fsCreate fs path) 0 = (fs1, .ok t1) →
      writeChunks path max (done ++ todo) (fsCreate fs path) 0
        = writeChunks path max todo fs1 t1) ∧
    fileSize (writeChunks path max done (fsCreate fs path) 0).1 path ≤ max := by
  constructor
  · intro todo fs1 t1 hdone
    rw [writeChunks_append path max done todo (fsCreate fs path) 0, hdone]
  · exact (writeChunks_inv path max done (fsCreate fs path) 0
      (fsHas_fsCreate_self fs path) (fileSize_fsCreate_self fs path)
      (Nat.zero_le max)).1

/-- Witness for C9 at a concrete input: a 1-chunk prefix of a 2-chunk
stream, its intermediate state and its cap bound. -/
theorem write_cap_invariant_witness :
    writeChunks "/tmp/f" 5 ([Except.ok [9]] ++ [Except.ok [8]])
        (fsCreate [] "/tmp/f") 0
      = writeChunks "/tmp/f" 5 [Except.ok [8]] [("/tmp/f", [9])] 1 ∧
    fileSize (writeChunks "/tmp/f" 5 [Except.ok [9]] (fsCreate [] "/tmp/f") 0).1
      "/tmp/f" ≤ 5 :=
  ⟨(write_cap_invariant "/tmp/f" 5 [Except.ok [9]] []).1
      [Except.ok [8]] [("/tmp/f", [9])] 1 (by rfl),
   (write_cap_invariant "/tmp/f" 5 [Except.ok [9]] []).2⟩

/-- C4: success requires both backends.  Whenever handle_upload returns a
success response, both backend calls at the transient path returned
locators and the response exposes exactly those two; and whenever exactly
one of the two backend calls fails (their success states differ),
handle_upload returns an error, never a success response with a single
locator. -/
theorem one_backend_failure_fails (config : Config) (u1 u2 : String)
    (s3Put : String → String → String → Except String String)
    (ipfsPut : String → Except String String)
    (form : Except String (List FormPart)) (fs fs1 : FS)
    (fp fn : String) (sz : Nat)
    (hx : extract_and_save_file config u1 form fs = (fs1, .ok (fp, fn, sz))) :
    (∀ fs2 resp,
      handle_upload config u1 u2 s3Put ipfsPut form fs = (fs2, .ok resp) →
      s3Put fp config.s3.bucket (generate_file_key u2 fn config.s3.keyPre)
          = .ok resp.s3_url ∧
      ipfsPut fp = .ok resp.ipfs_hash) ∧
    ((s3Put fp config.s3.bucket (generate_file_key u2 fn config.s3.keyPre)).isOk
        ≠ (ipfsPut fp).isOk →
      ((handle_upload config u1 u2 s3Put ipfsPut form fs).2).isOk = false) := by
  have hu : handle_upload config u1 u2 s3Put ipfsPut form fs
      = match try_join
            (s3Put fp config.s3.bucket (generate_file_key u2 fn config.s3.keyPre))
            (ipfsPut fp) with
        | .error e => (fs1, .error (.UploadError e))
        | .ok (s3_url, ipfs_hash) =>
            (fsRemove fs1 fp,
             .ok { s3_url := s3_url, ipfs_hash := ipfs_hash,
                   filename := fn, size := sz }) := by
    unfold handle_upload
    rw [hx]
  match ha : s3Put fp config.s3.bucket (generate_file_key u2 fn config.s3.keyPre),
      hb : ipfsPut fp with
  | .ok x, .ok y =>
      constructor
      · intro fs2 resp hres
        rw [hu, ha, hb] at hres
        simp [try_join] at hres
        obtain ⟨-, hresp⟩ := hres
        rw [← hresp]
        exact ⟨rfl, rfl⟩
      · intro hne
        exact absurd rfl hne
  | .ok x, .error e =>
      refine ⟨?_, ?_⟩
      · intro fs2 resp hres
        rw [hu, ha, hb] at hres
        simp [try_join] at hres
      · intro hne
        rw [hu, ha, hb]
        rfl
  | .error e, .ok y =>
      refine ⟨?_, ?_⟩
      · intro fs2 resp hres
        rw [hu, ha, hb] at hres
        simp [try_join] at hres
      · intro hne
        rw [hu, ha, hb]
        rfl
  | .error e, .error e2 =>
      refine ⟨?_, ?_⟩
      · intro fs2 resp hres
        rw [hu, ha, hb] at hres
        simp [try_join] at hres
      · intro hne
        rw [hu, ha, hb]
        rfl

/-- Witness for C4 at a concrete input: S3 succeeds, IPFS fails, so the
call produces no success response. -/
theorem one_backend_failure_fails_witness :
    ((handle_upload cfgEx "u1" "u2" (fun _ _ _ => Except.ok "https://s3/x")
        (fun _ => Except.error "ipfs down")
        (.ok [{ name := "file", filename := some "a.txt", chunks := [.ok [1]] }])
        []).2).isOk = false :=
  (one_backend_failure_fails cfgEx "u1" "u2"
      (fun _ _ _ => Except.ok "https://s3/x") (fun _ => Except.error "ipfs down")
      (.ok [{ name := "file", filename := some "a.txt", chunks := [.ok [1]] }])
      [] [("/tmp/u1_a.txt", [1])] "/tmp/u1_a.txt" "a.txt" 1 (by rfl)).2 (by decide)

/-- A successful extraction leaves the transient file on disk: the write
loop created it and only appends to it afterwards. -/
theorem extract_ok_has (config : Config) (uuid : String)
    (form : Except String (List FormPart)) (fs fs1 : FS)
    (fp fn : String) (sz : Nat)
    (hx : extract_and_save_file config uuid form fs = (fs1, .ok (fp, fn, sz))) :
    fsHas fs1 fp = true := by
  match form with
  | .error e => simp [extract_and_save_file] at hx
  | .ok parts =>
      have hex : extractLoop config uuid parts fs = (fs1, .ok (fp, fn, sz)) := hx
      match hfp : firstFilePart parts with
      | none =>
          rw [extractLoop_no_file config uuid parts fs hfp] at hex
          simp at hex
      | some pt =>
          rw [extractLoop_eq_processPart config uuid parts pt fs hfp] at hex
          exact (processPart_ok config uuid pt fs fs1 fp fn sz hex).2.2.1

/-- C1 counterexample: a concrete call in which S3 succeeds and IPFS
fails returns the replication error while the transient file
/tmp/u1_a.txt is STILL on disk when the call returns — the remove_file
call sits after the try_join question-mark operator and is skipped on
that exit path. -/
theorem cleanup_guard_counterexample :
    (handle_upload cfgEx "u1" "u2" (fun _ _ _ => Except.ok "https://s3/x")
        (fun _ => Except.error "ipfs down")
        (.ok [{ name := "file", filename := some "a.txt", chunks := [.ok [1]] }])
        []).2
      = .error (.UploadError "ipfs down") ∧
    fsHas (handle_upload cfgEx "u1" "u2" (fun _ _ _ => Except.ok "https://s3/x")
        (fun _ => Except.error "ipfs down")
        (.ok [{ name := "file", filename := some "a.txt", chunks := [.ok [1]] }])
        []).1 "/tmp/u1_a.txt" = true :=
  ⟨by rfl, by rfl⟩

/-- C1 amended: the transient file is removed on the success path and on
the size-cap path, but NOT on the replication-failure path.  (i) A
success response implies the transient file is absent from the returned
filesystem.  (ii) A size-cap failure implies it is absent.  (iii) A
backend failure after a successful extraction returns the replication
error with the transient file still present. -/
theorem handle_upload_cleanup (config : Config) (u1 u2 : String)
    (s3Put : String → String → String → Except String String)
    (ipfsPut : String → Except String String)
    (form : Except String (List FormPart)) (fs : FS) :
    (∀ fs1 fp fn sz fs2 resp,
      extract_and_save_file config u1 form fs = (fs1, .ok (fp, fn, sz)) →
      handle_upload config u1 u2 s3Put ipfsPut form fs = (fs2, .ok resp) →
      fsHas fs2 fp = false) ∧
    (∀ parts fp,
      form = .ok parts → transientPathOf config u1 parts = some fp →
      (extract_and_save_file config u1 form fs).2
        = .error (.UploadError (sizeLimitMsg config.upload.max_file_size)) →
      handle_upload config u1 u2 s3Put ipfsPut form fs
        = ((extract_and_save_file config u1 form fs).1,
           .error (.UploadError (sizeLimitMsg config.upload.max_file_size))) ∧
      fsHas (extract_and_save_file config u1 form fs).1 fp = false) ∧
    (∀ fs1 fp fn sz e,
      extract_and_save_file config u1 form fs = (fs1, .ok (fp, fn, sz)) →
      try_join (s3Put fp config.s3.bucket (generate_file_key u2 fn config.s3.keyPre))
          (ipfsPut fp) = .error e →
      handle_upload config u1 u2 s3Put ipfsPut form fs
        = (fs1, .error (.UploadError e)) ∧ fsHas fs1 fp = true) := by
  refine ⟨?_, ?_, ?_⟩
  · intro fs1 fp fn sz fs2 resp hx hres
    have hu : handle_upload config u1 u2 s3Put ipfsPut form fs
        = match try_join
              (s3Put fp config.s3.bucket (generate_file_key u2 fn config.s3.keyPre))
              (ipfsPut fp) with
          | .error e => (fs1, .error (.UploadError e))
          | .ok (s3_url, ipfs_hash) =>
              (fsRemove fs1 fp,
               .ok { s3_url := s3_url, ipfs_hash := ipfs_hash,
                     filename := fn, size := sz }) := by
      unfold handle_upload
      rw [hx]
    match htry : try_join
        (s3Put fp config.s3.bucket (generate_file_key u2 fn config.s3.keyPre))
        (ipfsPut fp) with
    | .error e =>
        rw [hu, htry] at hres
        simp at hres
    | .ok (x, y) =>
        rw [hu, htry] at hres
        simp at hres
        obtain ⟨hfs2, -⟩ := hres
        rw [← hfs2]
        exact fsHas_fsRemove fs1 fp
  · intro parts fp hform hpath hx
    subst hform
    match hE : extractLoop config u1 parts fs with
    | (fsE, resE) =>
        have hE2 : (extract_and_save_file config u1 (.ok parts) fs) = (fsE, resE) := hE
        rw [hE2] at hx
        have hres : resE = .error (.UploadError (sizeLimitMsg config.upload.max_file_size)) := hx
        subst hres
        refine ⟨?_, ?_⟩
        · have hgoal : handle_upload config u1 u2 s3Put ipfsPut (Except.ok parts) fs
              = (fsE, Except.error
                  (StorageError.UploadError
                    (sizeLimitMsg config.upload.max_file_size))) := by
            unfold handle_upload
            rw [hE2]
          rw [hgoal, hE2]
        · rw [hE2]
          match hfpt : firstFilePart parts with
          | none => simp [transientPathOf, hfpt] at hpath
          | some pt =>
              match hfn : pt.filename with
              | none => simp [transientPathOf, hfpt, hfn] at hpath
              | some fn2 =>
                  have hfp2 : fp = joinPath config.upload.temp_dir (u1 ++ "_" ++ fn2) := by
                    simp [transientPathOf, hfpt, hfn] at hpath
                    exact hpath.symm
                  subst hfp2
                  have hpp : extractLoop config u1 parts fs
                      = processPart config u1 pt fs :=
                    extractLoop_eq_processPart config u1 parts pt fs hfpt
                  have hperr : (processPart config u1 pt fs).2
                      = .error (.UploadError (sizeLimitMsg config.upload.max_file_size)) := by
                    rw [← hpp, hE]
                  have hrem := processPart_uploadError_removed config u1 pt fs fn2
                    (sizeLimitMsg config.upload.max_file_size) hfn hperr
                  rw [hpp] at hE
                  rw [hE] at hrem
                  exact hrem
  · intro fs1 fp fn sz e hx htry
    have hu : handle_upload config u1 u2 s3Put ipfsPut form fs
        = match try_join
              (s3Put fp config.s3.bucket (generate_file_key u2 fn config.s3.keyPre))
              (ipfsPut fp) with
          | .error e2 => (fs1, .error (.UploadError e2))
          | .ok (s3_url, ipfs_hash) =>
              (fsRemove fs1 fp,
               .ok { s3_url := s3_url, ipfs_hash := ipfs_hash,
                     filename := fn, size := sz }) := by
      unfold handle_upload
      rw [hx]
    rw [hu, htry]
    exact ⟨rfl, extract_ok_has config u1 form fs fs1 fp fn sz hx⟩

/-- Witness for the amended C1: a concrete successful call, whose ending
filesystem no longer holds the transient file. -/
theorem handle_upload_cleanup_witness :
    fsHas ([] : FS) "/tmp/u1_a.txt" = false :=
  (handle_upload_cleanup cfgEx "u1" "u2" (fun _ _ _ => Except.ok "https://s3/x")
      (fun _ => Except.ok "QmHash1")
      (.ok [{ name := "file", filename := some "a.txt", chunks := [.ok [1]] }])
      []).1
    [("/tmp/u1_a.txt", [1])] "/tmp/u1_a.txt" "a.txt" 1 []
    { s3_url := "https://s3/x", ipfs_hash := "QmHash1",
      filename := "a.txt", size := 1 }
    (by rfl) (by rfl)
